import Mathlib

/-!
Image-Management: the gallery navigator of `main.go`.

A shallow embedding of the file-list bookkeeping of `main.go`
(`CheckOutOfIndex`, `DeleteFile`, `ReadFiles`, `EncodeImage`, `DrawImage`
and the key handlers of the event loop in `main`) together with the
properties of the specification that concern them.

Conventions of the embedding.

* A Go `[]string` is a `List String`; the `nil` slice and the empty slice are
  both `[]`.
* A Go `int` is an `Int`.  The only arithmetic of the navigator is
  `sliceLength - 1`, `curIndex + 1` and `curIndex - 1`, on values that are bounded
  by a slice length, so 64-bit wrap-around never occurs and is not modelled.
* A run-time panic (index out of range) is the outer `none` of an `Option`
  result; an `error` return value is an `Option GoError` (`none` is Go `nil`).
* The collaborators of the standard library (`os.Remove`, `os.Create`,
  `ioutil.ReadDir`, `jpeg.Encode`, the decoder) are not part of the repository:
  `os.Remove` acts on a small model of storage, `ioutil.ReadDir` returns the
  entries of a directory sorted by filename, the others are parameters.
-/

namespace ImageManagement

/-! ## Storage and `os.Remove` -/

/-- Error values returned by the storage collaborator. -/
inductive GoError where
  | notExist
  | permission
  | other (msg : String)
  deriving DecidableEq, Repr

/-- Persistent storage as seen by `os.Remove`: the set of paths that exist and
the set of paths whose removal is denied. -/
structure Storage where
  files : Finset String
  locked : Finset String
  deriving DecidableEq

deriving instance DecidableEq for Except

/-- Model of `os.Remove name`: fails when `name` does not exist or may not be
removed, otherwise removes exactly `name`. -/
def osRemove (st : Storage) (name : String) : Except GoError Storage :=
  if name ∈ st.files then
    if name ∈ st.locked then .error .permission
    else .ok { st with files := st.files.erase name }
  else .error .notExist

/-! ## Slices -/

/-- Index expression `xs[index]` of Go: `none` is the index-out-of-range panic. -/
def sliceIndex (xs : List String) (index : Int) : Option String :=
  if index < 0 then none else xs[index.toNat]?

/-! ## `CheckOutOfIndex` (main.go 125-134) -/

/-- Embedding of `CheckOutOfIndex(sliceLength, index)`. -/
def CheckOutOfIndex (sliceLength : Int) (index : Int) : Int :=
  if index ≥ sliceLength then 0
  else if index < 0 then sliceLength - 1
  else index

/-! ## `DeleteFile` (main.go 101-122) -/

/-- Values returned by `DeleteFile`, with the storage it leaves behind. -/
structure DeleteResult where
  storage : Storage
  imgNames : List String
  err : Option GoError
  deriving DecidableEq

/-- Embedding of `DeleteFile(imgNames, index)`; the outer `none` is the panic of
`imgNames[index]` on an index out of range. -/
def DeleteFile (st : Storage) (imgNames : List String) (index : Int) :
    Option DeleteResult :=
  match sliceIndex imgNames index with
  | none => none
  | some name =>
    match osRemove st name with
    | .error err => some ⟨st, [], some err⟩
    | .ok st' =>
      if imgNames.length = 1 then some ⟨st', [], none⟩
      else if index = (imgNames.length : Int) - 1 then
        some ⟨st', imgNames.take index.toNat, none⟩
      else if index = 0 then
        some ⟨st', imgNames.drop 1, none⟩
      else
        some ⟨st', imgNames.take index.toNat ++ imgNames.drop (index.toNat + 1), none⟩

/-! ## `DrawImage` (main.go 79-98) -/

/-- Embedding of `DrawImage(ws, buffer, imgNames, index)` as far as the
navigator sees it: `imgNames[index]` panics when out of range (outer `none`),
otherwise the result is the error of `DecodeImage` (the parameter
`decodeImage`), or `nil` after the upload. -/
def DrawImage {I : Type} (decodeImage : String → Except GoError I)
    (imgNames : List String) (index : Int) : Option (Option GoError) :=
  match sliceIndex imgNames index with
  | none => none
  | some name =>
    match decodeImage name with
    | .error err => some (some err)
    | .ok _ => some none

/-! ## `EncodeImage` (main.go 49-57) -/

/-- Embedding of `EncodeImage(filename, src)`: `osCreate` is `os.Create`,
`jpegEncode` is `jpeg.Encode(f, src, nil)`, whose returned error the source
does not bind. -/
def EncodeImage {F I : Type} (osCreate : String → Except GoError F)
    (jpegEncode : F → I → Option GoError) (filename : String) (src : I) :
    Option GoError :=
  match osCreate filename with
  | .error err => some err
  | .ok f =>
    let _ := jpegEncode f src
    none

/-! ## `ReadFiles` (main.go 60-76) -/

/-- Outcome of a directory scan: `fatal` is `log.Fatal(err)`, `outOfFuel` means
that the recursion went deeper than the fuel allowed. -/
inductive ScanResult where
  | outOfFuel
  | fatal (err : GoError)
  | ok (imgNames : List String)
  deriving DecidableEq, Repr

/-- The test `regexp.MustCompile("[.]").MatchString(name)`: the name contains
a `.` character. -/
def hasDot (name : String) : Bool :=
  name.data.contains '.'

/-- The expression `fmt.Sprintf("%s/%s", path, name)`. -/
def joinPath (path name : String) : String :=
  path ++ "/" ++ name

/-- The `for _, file := range files` loop of `ReadFiles`; `recurse` is the
recursive call and `imgNames` the slice built so far. -/
def scanLoop (recurse : String → ScanResult) (path : String) :
    List String → List String → ScanResult
  | [], imgNames => .ok imgNames
  | file :: rest, imgNames =>
    let fullPath := joinPath path file
    if hasDot file then
      scanLoop recurse path rest (imgNames ++ [fullPath])
    else
      match recurse fullPath with
      | .ok sub => scanLoop recurse path rest (imgNames ++ sub)
      | .fatal err => .fatal err
      | .outOfFuel => .outOfFuel

/-- Embedding of `ReadFiles(path)`.  `readDir` is `ioutil.ReadDir` reduced to
the names of the entries it lists; the first argument bounds the depth of the
recursion. -/
def ReadFiles (readDir : String → Except GoError (List String)) :
    Nat → String → ScanResult
  | 0, _ => .outOfFuel
  | fuel + 1, path =>
    match readDir path with
    | .error err => .fatal err
    | .ok files => scanLoop (ReadFiles readDir fuel) path files []

/-- Order of file names used by `ioutil.ReadDir`: lexicographic on the
characters of the name. -/
def nameLE (a b : String) : Prop :=
  a.data ≤ b.data

instance nameLE_decidable : DecidableRel nameLE :=
  fun a b => inferInstanceAs (Decidable (a.data ≤ b.data))

instance nameLE_total : IsTotal String nameLE :=
  ⟨fun a b => le_total a.data b.data⟩

instance nameLE_trans : IsTrans String nameLE :=
  ⟨fun _ _ _ h1 h2 => le_trans (α := List Char) h1 h2⟩

/-- Model of `ioutil.ReadDir(path)`, reduced to the names of the entries:
`entries path` is what the directory holds, in any order, and the library
returns the entries sorted by filename. -/
def ioutilReadDir (entries : String → Except GoError (List String))
    (path : String) : Except GoError (List String) :=
  match entries path with
  | .error err => .error err
  | .ok names => .ok (names.insertionSort nameLE)

/-- The directory of the scan scenario: `root` holds `x.jpg`, `y.png` and the
directory `sub`, and `root/sub` holds `z.gif`; nothing else is a directory. -/
def scenarioEntries (path : String) : Except GoError (List String) :=
  if path = "root" then .ok ["x.jpg", "y.png", "sub"]
  else if path = "root/sub" then .ok ["z.gif"]
  else .error .notExist

/-! ## The event loop of `main` (main.go 154-226) -/

/-- The key codes the navigator reacts to: `key.CodeRightArrow`,
`key.CodeLeftArrow`, the two delete keys, and the keys that edit the current
image in place (brightness, contrast, crop). -/
inductive KeyCode where
  | rightArrow
  | leftArrow
  | delete
  | edit
  deriving DecidableEq, Repr

/-- The variables of the loop: storage, `imgNames` and `curIndex`. -/
structure Gallery where
  storage : Storage
  imgNames : List String
  curIndex : Int
  deriving DecidableEq

/-- State of the process between two events. -/
inductive LoopState where
  | running (g : Gallery)
  | panicked
  | fatal (err : GoError)
  deriving DecidableEq

/-- The collaborators of the loop: `DecodeImage`, the image transform of the
edit keys, `os.Create` and `jpeg.Encode`. -/
structure Codec (F I : Type) where
  decodeImage : String → Except GoError I
  transform : I → I
  osCreate : String → Except GoError F
  jpegEncode : F → I → Option GoError

/-- One `key.Event` with direction `DirRelease`, handled as in the `switch
e.Code` of `main`. -/
def handleKey {F I : Type} (cd : Codec F I) (g : Gallery) : KeyCode → LoopState
  | .rightArrow =>
    let curIndex := CheckOutOfIndex g.imgNames.length (g.curIndex + 1)
    match DrawImage cd.decodeImage g.imgNames curIndex with
    | none => .panicked
    | some _ => .running { g with curIndex := curIndex }
  | .leftArrow =>
    let curIndex := CheckOutOfIndex g.imgNames.length (g.curIndex - 1)
    match DrawImage cd.decodeImage g.imgNames curIndex with
    | none => .panicked
    | some _ => .running { g with curIndex := curIndex }
  | .delete =>
    match DeleteFile g.storage g.imgNames g.curIndex with
    | none => .panicked
    | some r =>
      match r.err with
      | some err => .fatal err
      | none =>
        match DrawImage cd.decodeImage r.imgNames g.curIndex with
        | none => .panicked
        | some _ => .running { g with storage := r.storage, imgNames := r.imgNames }
  | .edit =>
    match sliceIndex g.imgNames g.curIndex with
    | none => .panicked
    | some name =>
      match cd.decodeImage name with
      | .error err => .fatal err
      | .ok curImage =>
        match EncodeImage cd.osCreate cd.jpegEncode name (cd.transform curImage) with
        | some err => .fatal err
        | none =>
          match DrawImage cd.decodeImage g.imgNames g.curIndex with
          | none => .panicked
          | some _ => .running g

/-- The loop over a finite sequence of key events; a process that panicked or
died handles no further event. -/
def runKeys {F I : Type} (cd : Codec F I) : LoopState → List KeyCode → LoopState
  | .running g, k :: ks => runKeys cd (handleKey cd g k) ks
  | s, _ => s

/-- Start of the session: `curIndex := 0` and the first `DrawImage`, whose
error is fatal. -/
def startSession {F I : Type} (cd : Codec F I) (st : Storage)
    (imgNames : List String) : LoopState :=
  match DrawImage cd.decodeImage imgNames 0 with
  | none => .panicked
  | some (some err) => .fatal err
  | some none => .running ⟨st, imgNames, 0⟩

/-- The cursor invariant of the data model: `0 <= curIndex < len(imgNames)`
whenever the list is not empty. -/
def cursorValid (g : Gallery) : Prop :=
  0 < g.imgNames.length → 0 ≤ g.curIndex ∧ g.curIndex < g.imgNames.length

/-- A codec whose every call succeeds, on images without content. -/
def okCodec : Codec Unit Unit :=
  ⟨fun _ => .ok (), fun i => i, fun _ => .ok (), fun _ _ => none⟩

/-- A codec whose encoder fails on every image while `os.Create` succeeds. -/
def failingEncoder : Codec Unit Unit :=
  ⟨fun _ => .ok (), fun i => i, fun _ => .ok (), fun _ _ => some (.other "jpeg: image is too large to encode")⟩

/-- Storage holding the three files `a`, `b`, `c`, all removable. -/
def storageABC : Storage :=
  ⟨{"a", "b", "c"}, ∅⟩

/-! ## Properties -/

/-! ### Shared lemmas -/

theorem sliceIndex_natCast (xs : List String) (i : Nat) :
    sliceIndex xs (i : Int) = xs[i]? := by
  unfold sliceIndex
  have h : ¬ ((i : Int) < 0) := by omega
  rw [if_neg h, Int.toNat_natCast]

theorem sliceIndex_isSome (xs : List String) (index : Int) (h0 : 0 ≤ index)
    (h1 : index < xs.length) : ∃ name, sliceIndex xs index = some name := by
  obtain ⟨i, rfl⟩ := Int.eq_ofNat_of_zero_le h0
  have hi : i < xs.length := by exact_mod_cast h1
  exact ⟨xs[i], by rw [sliceIndex_natCast, List.getElem?_eq_getElem hi]⟩

theorem DrawImage_isSome {I : Type} (decodeImage : String → Except GoError I)
    (xs : List String) (index : Int) (h0 : 0 ≤ index) (h1 : index < xs.length) :
    ∃ r, DrawImage decodeImage xs index = some r := by
  obtain ⟨name, hname⟩ := sliceIndex_isSome xs index h0 h1
  unfold DrawImage
  rw [hname]
  cases hd : decodeImage name <;> simp [hd]

theorem CheckOutOfIndex_bounds (n i : Int) (hn : 0 < n) :
    0 ≤ CheckOutOfIndex n i ∧ CheckOutOfIndex n i < n := by
  unfold CheckOutOfIndex
  split_ifs <;> omega

theorem CheckOutOfIndex_succ_eq_emod (n c : Int) (h0 : 0 ≤ c) (h1 : c < n) :
    CheckOutOfIndex n (c + 1) = (c + 1) % n := by
  unfold CheckOutOfIndex
  split_ifs with ha hb
  · have hc : c + 1 = n := by omega
    rw [hc, Int.emod_self]
  · omega
  · rw [Int.emod_eq_of_lt (by omega) (by omega)]

theorem iterate_forward_eq_emod (n c : Int) (h0 : 0 ≤ c) (h1 : c < n) (k : Nat) :
    (fun x => CheckOutOfIndex n (x + 1))^[k] c = (c + k) % n := by
  induction k with
  | zero => simp [Int.emod_eq_of_lt h0 h1]
  | succ k ih =>
    rw [Function.iterate_succ_apply', ih]
    have hn : 0 < n := by omega
    have hm0 : 0 ≤ (c + k) % n := Int.emod_nonneg _ (by omega)
    have hm1 : (c + k) % n < n := Int.emod_lt_of_pos _ hn
    show CheckOutOfIndex n ((c + k) % n + 1) = _
    rw [CheckOutOfIndex_succ_eq_emod n _ hm0 hm1, Int.emod_add_emod]
    congr 1
    push_cast
    ring

theorem handleKey_rightArrow_running {F I : Type} (cd : Codec F I) (g : Gallery)
    (hn : 0 < g.imgNames.length) :
    handleKey cd g .rightArrow =
      .running { g with curIndex := CheckOutOfIndex g.imgNames.length (g.curIndex + 1) } := by
  have hb := CheckOutOfIndex_bounds g.imgNames.length (g.curIndex + 1) (by exact_mod_cast hn)
  obtain ⟨r, hr⟩ := DrawImage_isSome cd.decodeImage g.imgNames _ hb.1 hb.2
  simp only [handleKey, hr]

theorem handleKey_leftArrow_running {F I : Type} (cd : Codec F I) (g : Gallery)
    (hn : 0 < g.imgNames.length) :
    handleKey cd g .leftArrow =
      .running { g with curIndex := CheckOutOfIndex g.imgNames.length (g.curIndex - 1) } := by
  have hb := CheckOutOfIndex_bounds g.imgNames.length (g.curIndex - 1) (by exact_mod_cast hn)
  obtain ⟨r, hr⟩ := DrawImage_isSome cd.decodeImage g.imgNames _ hb.1 hb.2
  simp only [handleKey, hr]

theorem arrow_keys_keep_cursorValid {F I : Type} (cd : Codec F I) (g : Gallery)
    (hn : 0 < g.imgNames.length) (k : KeyCode) (hk : k = .rightArrow ∨ k = .leftArrow) :
    ∃ g' : Gallery, handleKey cd g k = .running g' ∧ g'.imgNames = g.imgNames ∧
      g'.storage = g.storage ∧ cursorValid g' := by
  have hpos : (0 : Int) < g.imgNames.length := by exact_mod_cast hn
  rcases hk with rfl | rfl
  · exact ⟨_, handleKey_rightArrow_running cd g hn, rfl, rfl,
      fun _ => CheckOutOfIndex_bounds _ _ hpos⟩
  · exact ⟨_, handleKey_leftArrow_running cd g hn, rfl, rfl,
      fun _ => CheckOutOfIndex_bounds _ _ hpos⟩

theorem runKeys_rightArrows {F I : Type} (cd : Codec F I) (st : Storage)
    (imgNames : List String) (hn : 0 < imgNames.length) (k : Nat) (c : Int) :
    runKeys cd (.running ⟨st, imgNames, c⟩) (List.replicate k .rightArrow) =
      .running ⟨st, imgNames,
        (fun x => CheckOutOfIndex imgNames.length (x + 1))^[k] c⟩ := by
  induction k generalizing c with
  | zero => simp [runKeys]
  | succ k ih =>
    rw [List.replicate_succ, runKeys, handleKey_rightArrow_running cd _ hn]
    simp only []
    rw [ih, Function.iterate_succ_apply]

/-! ### `CheckOutOfIndex` -/

/-- C5: for every length `n > 0` and every integer index `i`, the value
returned by `CheckOutOfIndex(n, i)` lies in `[0, n)`. -/
theorem CheckOutOfIndex_in_range (n i : Int) (hn : 0 < n) :
    0 ≤ CheckOutOfIndex n i ∧ CheckOutOfIndex n i < n := by
  unfold CheckOutOfIndex
  split_ifs <;> omega

theorem CheckOutOfIndex_in_range_witness :
    0 ≤ CheckOutOfIndex 3 (-7) ∧ CheckOutOfIndex 3 (-7) < 3 :=
  CheckOutOfIndex_in_range 3 (-7) (by decide)

/-- C9: for every length `n > 0`, `CheckOutOfIndex(n, n) = 0`,
`CheckOutOfIndex(n, -1) = n - 1`, `CheckOutOfIndex(n, k) = k` for `0 <= k < n`,
and more generally the result is `0` for every index `>= n` and `n - 1` for
every index `< 0`. -/
theorem CheckOutOfIndex_values (n : Int) (hn : 0 < n) :
    CheckOutOfIndex n n = 0 ∧
    CheckOutOfIndex n (-1) = n - 1 ∧
    (∀ k : Int, 0 ≤ k → k < n → CheckOutOfIndex n k = k) ∧
    (∀ i : Int, n ≤ i → CheckOutOfIndex n i = 0) ∧
    (∀ i : Int, i < 0 → CheckOutOfIndex n i = n - 1) := by
  refine ⟨?_, ?_, ?_, ?_, ?_⟩
  · simp [CheckOutOfIndex]
  · unfold CheckOutOfIndex
    split_ifs <;> omega
  · intro k h0 h1
    unfold CheckOutOfIndex
    split_ifs <;> omega
  · intro i hi
    unfold CheckOutOfIndex
    split_ifs <;> omega
  · intro i hi
    unfold CheckOutOfIndex
    split_ifs <;> omega

theorem CheckOutOfIndex_values_witness :
    CheckOutOfIndex 3 3 = 0 ∧
    CheckOutOfIndex 3 (-1) = 3 - 1 ∧
    (∀ k : Int, 0 ≤ k → k < 3 → CheckOutOfIndex 3 k = k) ∧
    (∀ i : Int, 3 ≤ i → CheckOutOfIndex 3 i = 0) ∧
    (∀ i : Int, i < 0 → CheckOutOfIndex 3 i = 3 - 1) :=
  CheckOutOfIndex_values 3 (by decide)

/-- C6: for a file list of length `n > 0` and a cursor `c` with `0 <= c < n`,
applying step-forward (`c` becomes `CheckOutOfIndex(n, c + 1)`) exactly `n` times
returns the cursor to `c`; in the event loop, `n` right-arrow keys bring the
session back to the state it started from. -/
theorem step_forward_cycle {F I : Type} (cd : Codec F I) (st : Storage)
    (imgNames : List String) (c : Int) (hn : 0 < imgNames.length)
    (h0 : 0 ≤ c) (h1 : c < imgNames.length) :
    (fun x => CheckOutOfIndex imgNames.length (x + 1))^[imgNames.length] c = c ∧
    runKeys cd (.running ⟨st, imgNames, c⟩)
      (List.replicate imgNames.length .rightArrow) = .running ⟨st, imgNames, c⟩ := by
  have hcyc : (fun x => CheckOutOfIndex imgNames.length (x + 1))^[imgNames.length] c = c := by
    rw [iterate_forward_eq_emod _ c h0 h1, Int.add_emod_self, Int.emod_eq_of_lt h0 h1]
  refine ⟨hcyc, ?_⟩
  rw [runKeys_rightArrows cd st imgNames hn, hcyc]

theorem step_forward_cycle_witness :
    (fun x => CheckOutOfIndex (["a", "b", "c"] : List String).length (x + 1))^[
      (["a", "b", "c"] : List String).length] 1 = 1 ∧
    runKeys okCodec (.running ⟨storageABC, ["a", "b", "c"], 1⟩)
      (List.replicate (["a", "b", "c"] : List String).length .rightArrow) =
        .running ⟨storageABC, ["a", "b", "c"], 1⟩ :=
  step_forward_cycle okCodec storageABC ["a", "b", "c"] 1 (by decide) (by decide) (by decide)

/-! ### `DeleteFile` -/

theorem DeleteFile_ok_eq_eraseIdx (st st' : Storage) (imgNames : List String) (i : Nat)
    (hi : i < imgNames.length) (hrm : osRemove st (imgNames.get ⟨i, hi⟩) = .ok st') :
    DeleteFile st imgNames (i : Int) = some ⟨st', imgNames.eraseIdx i, none⟩ := by
  have hidx : sliceIndex imgNames (i : Int) = some (imgNames.get ⟨i, hi⟩) := by
    rw [sliceIndex_natCast, List.getElem?_eq_getElem hi]
    rfl
  unfold DeleteFile
  rw [hidx]
  simp only [hrm, Int.toNat_natCast]
  rw [List.eraseIdx_eq_take_drop_succ]
  split_ifs with h1 h2 h3
  · have hi0 : i = 0 := by omega
    subst hi0
    have hd : List.drop 1 imgNames = [] := List.drop_eq_nil_of_le (by omega)
    simp [hd]
  · have hd : List.drop (i + 1) imgNames = [] := List.drop_eq_nil_of_le (by omega)
    simp [hd]
  · have hi0 : i = 0 := by exact_mod_cast h3
    subst hi0
    simp
  · rfl

/-- C1: for every list of file paths and every index `i` with
`0 <= i < len(files)`, when the storage delete succeeds `DeleteFile(files, i)`
returns, without error, the list `files` with the element at position `i`
removed: its length is `len(files) - 1`, the elements before `i` keep their
positions and every element after `i` moves down by one (the new element at
position `j >= i` is the old element at `j + 1`); `[a,b,c]` at index `0` gives
`[b,c]`. -/
theorem DeleteFile_removes_index (st st' : Storage) (imgNames : List String) (i : Nat)
    (hi : i < imgNames.length) (hrm : osRemove st (imgNames.get ⟨i, hi⟩) = .ok st') :
    DeleteFile st imgNames (i : Int) = some ⟨st', imgNames.eraseIdx i, none⟩ ∧
    (imgNames.eraseIdx i).length = imgNames.length - 1 ∧
    (∀ j : Nat, j < i → (imgNames.eraseIdx i)[j]? = imgNames[j]?) ∧
    (∀ j : Nat, i ≤ j → (imgNames.eraseIdx i)[j]? = imgNames[j + 1]?) ∧
    (∀ a b c : String, imgNames = [a, b, c] → i = 0 →
      DeleteFile st imgNames (i : Int) = some ⟨st', [b, c], none⟩) := by
  have hmain := DeleteFile_ok_eq_eraseIdx st st' imgNames i hi hrm
  refine ⟨hmain, ?_, ?_, ?_, ?_⟩
  · rw [List.length_eraseIdx, if_pos hi]
  · intro j hj
    rw [List.getElem?_eraseIdx, if_pos hj]
  · intro j hj
    rw [List.getElem?_eraseIdx, if_neg (by omega)]
  · intro a b c habc h0
    rw [hmain, habc, h0]
    rfl

theorem DeleteFile_removes_index_witness :
    DeleteFile storageABC ["a", "b", "c"] ((0 : Nat) : Int) =
      some ⟨⟨{"b", "c"}, ∅⟩, (["a", "b", "c"] : List String).eraseIdx 0, none⟩ ∧
    ((["a", "b", "c"] : List String).eraseIdx 0).length =
      (["a", "b", "c"] : List String).length - 1 ∧
    (∀ j : Nat, j < 0 →
      ((["a", "b", "c"] : List String).eraseIdx 0)[j]? = (["a", "b", "c"] : List String)[j]?) ∧
    (∀ j : Nat, 0 ≤ j →
      ((["a", "b", "c"] : List String).eraseIdx 0)[j]? =
        (["a", "b", "c"] : List String)[j + 1]?) ∧
    (∀ a b c : String, (["a", "b", "c"] : List String) = [a, b, c] → 0 = 0 →
      DeleteFile storageABC ["a", "b", "c"] ((0 : Nat) : Int) =
        some ⟨⟨{"b", "c"}, ∅⟩, [b, c], none⟩) :=
  DeleteFile_removes_index storageABC ⟨{"b", "c"}, ∅⟩ ["a", "b", "c"] 0 (by decide) (by decide)

/-- C2, as the code has it: for every list of file paths and every valid
index, when the underlying storage delete fails `DeleteFile` reports that
error, leaves storage as it was, and returns the `nil` (empty) list in place of
the file list. -/
theorem DeleteFile_failure_returns_nil (st : Storage) (imgNames : List String)
    (index : Int) (name : String) (err : GoError)
    (hidx : sliceIndex imgNames index = some name)
    (hrm : osRemove st name = .error err) :
    DeleteFile st imgNames index = some ⟨st, [], some err⟩ := by
  unfold DeleteFile
  rw [hidx]
  simp only [hrm]

theorem DeleteFile_failure_returns_nil_witness :
    DeleteFile ⟨{"a", "b"}, {"b"}⟩ ["a", "b"] 1 =
      some ⟨⟨{"a", "b"}, {"b"}⟩, [], some .permission⟩ :=
  DeleteFile_failure_returns_nil ⟨{"a", "b"}, {"b"}⟩ ["a", "b"] 1 "b" .permission
    (by decide) (by decide)

/-- C2 fails as stated: deleting `a.jpg`, which storage does not hold, from
the list `[a.jpg]` reports the error and returns the empty list, not the input
list. -/
theorem DeleteFile_failure_drops_list :
    DeleteFile ⟨∅, ∅⟩ ["a.jpg"] 0 = some ⟨⟨∅, ∅⟩, [], some .notExist⟩ ∧
    ¬ (∀ r : DeleteResult, DeleteFile ⟨∅, ∅⟩ ["a.jpg"] 0 = some r →
        r.err ≠ none ∧ r.imgNames = ["a.jpg"]) := by
  refine ⟨by decide, ?_⟩
  intro h
  have h2 := (h ⟨⟨∅, ∅⟩, [], some .notExist⟩ (by decide)).2
  exact absurd h2 (by decide)

/-- C7: for a single-element list `[p]` whose file `p` exists in storage and
can be removed, `DeleteFile([p], 0)` returns no error and the empty list, and
afterwards storage holds exactly one file fewer: `p` no longer exists and every
other file is untouched. -/
theorem DeleteFile_single (st : Storage) (p : String)
    (hex : p ∈ st.files) (hrm : p ∉ st.locked) :
    ∃ st' : Storage, DeleteFile st [p] 0 = some ⟨st', [], none⟩ ∧
      st'.files.card + 1 = st.files.card ∧
      p ∉ st'.files ∧
      (∀ q : String, q ≠ p → (q ∈ st'.files ↔ q ∈ st.files)) ∧
      st'.locked = st.locked := by
  refine ⟨{ st with files := st.files.erase p }, ?_, ?_, ?_, ?_, rfl⟩
  · have hok : osRemove st p = .ok { st with files := st.files.erase p } := by
      unfold osRemove
      rw [if_pos hex, if_neg hrm]
    have h := DeleteFile_ok_eq_eraseIdx st _ [p] 0 (by simp) hok
    simpa using h
  · show (st.files.erase p).card + 1 = st.files.card
    rw [Finset.card_erase_of_mem hex]
    have hpos : 0 < st.files.card := Finset.card_pos.mpr ⟨p, hex⟩
    omega
  · show p ∉ st.files.erase p
    simp
  · intro q hq
    show q ∈ st.files.erase p ↔ q ∈ st.files
    simp [Finset.mem_erase, hq]

theorem DeleteFile_single_witness :
    ∃ st' : Storage, DeleteFile storageABC ["b"] 0 = some ⟨st', [], none⟩ ∧
      st'.files.card + 1 = storageABC.files.card ∧
      "b" ∉ st'.files ∧
      (∀ q : String, q ≠ "b" → (q ∈ st'.files ↔ q ∈ storageABC.files)) ∧
      st'.locked = storageABC.locked :=
  DeleteFile_single storageABC "b" (by decide) (by decide)

/-! ### `ReadFiles` -/

theorem scanLoop_ok (recurse : String → ScanResult) (path : String)
    (sub : String → List String) (files : List String)
    (hsub : ∀ f ∈ files, hasDot f = false → recurse (joinPath path f) = .ok (sub f))
    (acc : List String) :
    scanLoop recurse path files acc =
      .ok (acc ++ files.flatMap
        (fun f => if hasDot f then [joinPath path f] else sub f)) := by
  induction files generalizing acc with
  | nil => simp [scanLoop]
  | cons f rest ih =>
    have hrest : ∀ g ∈ rest, hasDot g = false → recurse (joinPath path g) = .ok (sub g) :=
      fun g hg => hsub g (List.mem_cons_of_mem f hg)
    by_cases hd : hasDot f = true
    · have hstep : scanLoop recurse path (f :: rest) acc =
          scanLoop recurse path rest (acc ++ [joinPath path f]) := by
        simp [scanLoop, hd]
      rw [hstep, ih hrest, List.flatMap_cons, if_pos hd, List.append_assoc]
    · have hd' : hasDot f = false := by simpa using hd
      have hr := hsub f (List.mem_cons_self f rest) hd'
      have hstep : scanLoop recurse path (f :: rest) acc =
          scanLoop recurse path rest (acc ++ sub f) := by
        simp [scanLoop, hd', hr]
      rw [hstep, ih hrest, List.flatMap_cons, if_neg hd, List.append_assoc]

theorem ReadFiles_step (readDir : String → Except GoError (List String))
    (fuel : Nat) (path : String) (files : List String) (sub : String → List String)
    (hdir : readDir path = .ok files)
    (hsub : ∀ f ∈ files, hasDot f = false →
      ReadFiles readDir fuel (joinPath path f) = .ok (sub f)) :
    ReadFiles readDir (fuel + 1) path =
      .ok (files.flatMap (fun f => if hasDot f then [joinPath path f] else sub f)) := by
  unfold ReadFiles
  simp only [hdir]
  rw [scanLoop_ok _ path sub files hsub []]
  simp

theorem scenario_scan_sub (n : Nat) :
    ReadFiles (ioutilReadDir scenarioEntries) (n + 1) "root/sub" =
      .ok ["root/sub/z.gif"] := by
  have hsub : ∀ f ∈ ["z.gif"], hasDot f = false →
      ReadFiles (ioutilReadDir scenarioEntries) n (joinPath "root/sub" f) =
        .ok ((fun _ => ([] : List String)) f) := by
    intro f hf hd
    have hf' : f = "z.gif" := by simpa using hf
    subst hf'
    exact absurd hd (by decide)
  have h := ReadFiles_step (ioutilReadDir scenarioEntries) n "root/sub" ["z.gif"]
    (fun _ => []) (by decide) hsub
  rw [h]
  decide

theorem scenario_scan_root (n : Nat) :
    ReadFiles (ioutilReadDir scenarioEntries) (n + 2) "root" =
      .ok ["root/sub/z.gif", "root/x.jpg", "root/y.png"] := by
  have hsub : ∀ f ∈ ["sub", "x.jpg", "y.png"], hasDot f = false →
      ReadFiles (ioutilReadDir scenarioEntries) (n + 1) (joinPath "root" f) =
        .ok ((fun _ => ["root/sub/z.gif"]) f) := by
    intro f hf hd
    have hf' : f = "sub" ∨ f = "x.jpg" ∨ f = "y.png" := by simpa using hf
    rcases hf' with rfl | rfl | rfl
    · have hj : joinPath "root" "sub" = "root/sub" := by decide
      rw [hj]
      exact scenario_scan_sub n
    · exact absurd hd (by decide)
    · exact absurd hd (by decide)
  have h := ReadFiles_step (ioutilReadDir scenarioEntries) (n + 1) "root"
    ["sub", "x.jpg", "y.png"] (fun _ => ["root/sub/z.gif"]) (by decide) hsub
  rw [h]
  decide

/-- C8, as the code has it: `ReadFiles` takes a directory entry for a leaf file
exactly when its name contains a `.` and otherwise recurses into it, appending
the results in the order of the directory listing, which `ioutil.ReadDir`
returns sorted by filename: when the directory holds `names` and the scan of
every entry without a dot returns `sub f`, the scan returns, in the order of
the sorted listing, `path/f` for an entry with a dot and the entries of `sub f`
otherwise.  For a root directory holding `x.jpg`, `y.png` and `sub`, where `sub`
is a directory holding `z.gif`, the listing is `[sub, x.jpg, y.png]` and the scan
returns exactly `root/sub/z.gif`, `root/x.jpg`, `root/y.png`, in that order, and
the directory `root/sub` is not in the result. -/
theorem ReadFiles_sorted_listing_order (entries : String → Except GoError (List String))
    (fuel : Nat) (path : String) (names : List String) (sub : String → List String)
    (hdir : entries path = .ok names)
    (hsub : ∀ f ∈ names, hasDot f = false →
      ReadFiles (ioutilReadDir entries) fuel (joinPath path f) = .ok (sub f)) :
    ReadFiles (ioutilReadDir entries) (fuel + 1) path =
      .ok ((names.insertionSort nameLE).flatMap
        (fun f => if hasDot f then [joinPath path f] else sub f)) ∧
    (names.insertionSort nameLE).Sorted nameLE ∧
    (names.insertionSort nameLE).Perm names ∧
    (∀ f : String, hasDot f = true ↔ '.' ∈ f.data) ∧
    ioutilReadDir scenarioEntries "root" = .ok ["sub", "x.jpg", "y.png"] ∧
    (∀ n : Nat, ReadFiles (ioutilReadDir scenarioEntries) (n + 2) "root" =
      .ok ["root/sub/z.gif", "root/x.jpg", "root/y.png"]) ∧
    "root/sub" ∉ ["root/sub/z.gif", "root/x.jpg", "root/y.png"] := by
  refine ⟨?_, List.sorted_insertionSort nameLE names, List.perm_insertionSort nameLE names,
    ?_, by decide, scenario_scan_root, by decide⟩
  · have hlist : ioutilReadDir entries path = .ok (names.insertionSort nameLE) := by
      unfold ioutilReadDir
      simp only [hdir]
    exact ReadFiles_step (ioutilReadDir entries) fuel path _ sub hlist
      (fun f hf hd => hsub f ((List.mem_insertionSort nameLE).mp hf) hd)
  · intro f
    simp [hasDot]

theorem ReadFiles_sorted_listing_order_witness :
    ReadFiles (ioutilReadDir scenarioEntries) (1 + 1) "root" =
      .ok (((["x.jpg", "y.png", "sub"] : List String).insertionSort nameLE).flatMap
        (fun f => if hasDot f then [joinPath "root" f] else ["root/sub/z.gif"])) ∧
    ((["x.jpg", "y.png", "sub"] : List String).insertionSort nameLE).Sorted nameLE ∧
    ((["x.jpg", "y.png", "sub"] : List String).insertionSort nameLE).Perm
      ["x.jpg", "y.png", "sub"] ∧
    (∀ f : String, hasDot f = true ↔ '.' ∈ f.data) ∧
    ioutilReadDir scenarioEntries "root" = .ok ["sub", "x.jpg", "y.png"] ∧
    (∀ n : Nat, ReadFiles (ioutilReadDir scenarioEntries) (n + 2) "root" =
      .ok ["root/sub/z.gif", "root/x.jpg", "root/y.png"]) ∧
    "root/sub" ∉ ["root/sub/z.gif", "root/x.jpg", "root/y.png"] :=
  ReadFiles_sorted_listing_order scenarioEntries 1 "root" ["x.jpg", "y.png", "sub"]
    (fun _ => ["root/sub/z.gif"]) (by decide) (by decide)

/-- C8 fails as stated: on the root directory holding `x.jpg`, `y.png` and
`sub` (with `z.gif` inside) the scan starts with `root/sub/z.gif`, so with no
amount of fuel does it return `root/x.jpg`, `root/y.png`, `root/sub/z.gif` in
that order. -/
theorem ReadFiles_scenario_order_differs :
    ReadFiles (ioutilReadDir scenarioEntries) 2 "root" =
      .ok ["root/sub/z.gif", "root/x.jpg", "root/y.png"] ∧
    ∀ n : Nat, ReadFiles (ioutilReadDir scenarioEntries) n "root" ≠
      .ok ["root/x.jpg", "root/y.png", "root/sub/z.gif"] := by
  refine ⟨scenario_scan_root 0, ?_⟩
  intro n
  match n with
  | 0 => decide
  | 1 => decide
  | n + 2 =>
    rw [scenario_scan_root n]
    decide

/-! ### The event loop -/

/-- C3, evaluated on the code: from cursor 0 over `[a,b,c]`, two right-arrow
keys bring the cursor to 2; the delete key then leaves the list `[a,b]` with the
cursor still 2, which is not below the length 2, and the `DrawImage` of the
delete handler indexes `imgNames[2]` and panics. -/
theorem delete_last_cursor_out_of_range :
    runKeys okCodec (startSession okCodec storageABC ["a", "b", "c"])
      [.rightArrow, .rightArrow] = .running ⟨storageABC, ["a", "b", "c"], 2⟩ ∧
    DeleteFile storageABC ["a", "b", "c"] 2 = some ⟨⟨{"a", "b"}, ∅⟩, ["a", "b"], none⟩ ∧
    ¬ cursorValid ⟨⟨{"a", "b"}, ∅⟩, ["a", "b"], 2⟩ ∧
    DrawImage okCodec.decodeImage ["a", "b"] 2 = none ∧
    runKeys okCodec (startSession okCodec storageABC ["a", "b", "c"])
      [.rightArrow, .rightArrow, .delete] = .panicked := by
  refine ⟨by decide, by decide, ?_, by decide, by decide⟩
  intro h
  have h2 := (h (by decide)).2
  exact absurd h2 (by decide)

/-- C10, evaluated on the code: once `os.Create` has succeeded `EncodeImage`
returns `nil` whatever the encoder returns; with an encoder that fails the edit
handler of the event loop sees no error and goes on running. -/
theorem EncodeImage_drops_encoder_error :
    (∀ jpegEncode : Unit → Unit → Option GoError,
      EncodeImage (fun _ => Except.ok ()) jpegEncode "a.jpg" () = none) ∧
    failingEncoder.jpegEncode () () ≠ none ∧
    EncodeImage failingEncoder.osCreate failingEncoder.jpegEncode "a.jpg" () = none ∧
    handleKey failingEncoder ⟨⟨{"a.jpg"}, ∅⟩, ["a.jpg"], 0⟩ .edit =
      .running ⟨⟨{"a.jpg"}, ∅⟩, ["a.jpg"], 0⟩ := by
  refine ⟨fun _ => rfl, by decide, by decide, by decide⟩

end ImageManagement
